import Mathlib

/-!
Verification of the LifeCode cellular-automaton engine (`src/1.py`).

The Python source is shallowly embedded: grids (`numpy` arrays of size
`GRID_SIZE × GRID_SIZE`) become functions `Nat → Nat → α` whose meaningful
domain is `[0, N) × [0, N)`; the in-place update loops become `List.foldl`
over the list of visited cells, writing one cell at a time; Python floats
are modelled as rationals (`ℚ`); `math.sin` is an abstract parameter
function; the `random` module calls are modelled by explicit draw records;
parse failures (`ValueError` from `split` unpacking, `int`, `float`) are
modelled with `Option`.
-/

/-- `True`/`False` of a decidable test as `1`/`0`, used for neighbor sums. -/
def b2n (b : Bool) : Nat := if b then 1 else 0

/-! ## Rule parsing (`parse_dna`, src/1.py lines 24-30) -/

/-- Decimal digit test for one character: code point between `'0'` (48)
and `'9'` (57). -/
def isDig (c : Char) : Bool := decide (48 ≤ c.toNat) && decide (c.toNat ≤ 57)

/-- Python `int(c)` for a single character: models the builtin on ASCII
decimal digits, failing (`ValueError`) on anything else. -/
def digit? (c : Char) : Option Nat :=
  if isDig c then some (c.toNat - 48) else none

/-- `[int(n) for n in s]`: every character must be a digit. -/
def parseDigits : List Char → Option (List Nat)
  | [] => some []
  | c :: t =>
    match digit? c, parseDigits t with
    | some d, some ds => some (d :: ds)
    | _, _ => none

/-- Numeric value of a digit string, most significant first. -/
def natVal (l : List Char) : Nat := l.foldl (fun a c => 10 * a + (c.toNat - 48)) 0

/-- Python `float(s)` on an unsigned decimal literal: digit run, optional
`'.'` and fractional digit run, at least one digit overall.  (The builtin's
exponent, `inf`/`nan`, whitespace and underscore forms are not modelled;
no claim depends on them.) -/
def pyFloatCore (l : List Char) : Option ℚ :=
  let ip := l.takeWhile isDig
  match l.dropWhile isDig with
  | [] => if ip.isEmpty then none else some ((natVal ip : ℚ))
  | c :: t =>
    if c = '.' && t.all isDig && !(ip.isEmpty && t.isEmpty) then
      some ((natVal ip : ℚ) + (natVal t : ℚ) / 10 ^ t.length)
    else none

/-- Python `float(s)`: optional leading sign, then an unsigned decimal. -/
def pyFloat? (l : List Char) : Option ℚ :=
  match l with
  | c :: t =>
    if c = '+' then pyFloatCore t
    else if c = '-' then (pyFloatCore t).map Neg.neg
    else pyFloatCore l
  | [] => none

/-- Python `s.split(sep)` for a one-character separator: splits on every
occurrence; `"".split(sep) == [""]`. -/
def pySplit (sep : Char) : List Char → List (List Char)
  | [] => [[]]
  | c :: t =>
    if c = sep then [] :: pySplit sep t
    else
      match pySplit sep t with
      | h :: r => (c :: h) :: r
      | [] => [[c]]

/-- `parse_dna` (src/1.py lines 24-30).  `b_part, rest = s.split("/")` and
`s_part, m_part = rest.split("|")` raise `ValueError` unless the split has
exactly two pieces; `b_part[1:]` / `s_part[1:]` / `m_part[1:]` drop the
first character unconditionally (the `B`/`S`/`M` markers are never
checked); then each remaining birth/survival character goes through
`int(...)` and the mutation tail through `float(...)`.  Any `ValueError`
is `none`. -/
def parse_dna (l : List Char) : Option (List Nat × List Nat × ℚ) :=
  match pySplit '/' l with
  | [b_part, rest] =>
    match pySplit '|' rest with
    | [s_part, m_part] =>
      match parseDigits (b_part.drop 1), parseDigits (s_part.drop 1),
            pyFloat? (m_part.drop 1) with
      | some birth, some survive, some mutation => some (birth, survive, mutation)
      | _, _, _ => none
    | _ => none
  | _ => none

example : parse_dna "B3/S23|M0.01".toList = some ([3], [2, 3], 1/100) := by
  simp +decide [parse_dna, pySplit, parseDigits, digit?, isDig, pyFloat?, pyFloatCore, natVal]
example : parse_dna "B3S23M0.01".toList = none := by decide
example : parse_dna "Bx/S23|M0.01".toList = none := by decide
example : parse_dna "B9/S23|M0.01".toList = some ([9], [2, 3], 1/100) := by
  simp +decide [parse_dna, pySplit, parseDigits, digit?, isDig, pyFloat?, pyFloatCore, natVal]
example : parse_dna "A3/S23|M0.01".toList = some ([3], [2, 3], 1/100) := by
  simp +decide [parse_dna, pySplit, parseDigits, digit?, isDig, pyFloat?, pyFloatCore, natVal]
example : parse_dna "B/S|M0.1".toList = some ([], [], 1/10) := by
  simp +decide [parse_dna, pySplit, parseDigits, digit?, isDig, pyFloat?, pyFloatCore, natVal]
example : pyFloat? "-1.5".toList = some (-(3/2)) := by
  simp +decide [pyFloat?, pyFloatCore, natVal, isDig]
  norm_num
example : pyFloat? ".".toList = none := by decide

/-! ## Grids as functions and the in-place update loops

A `GRID_SIZE × GRID_SIZE` numpy array becomes a function `Nat → Nat → α`
read as `array[y][x] = m x y`; its meaningful domain is `x < N`, `y < N`.
A nested `for y in range(N): for x in range(N):` loop that assigns one
cell per iteration becomes a `List.foldl` over `cellList N`, each step
overwriting a single point with `set2`. -/

/-- Overwrite a single cell of a function-represented grid. -/
def set2 {α : Type} (m : Nat → Nat → α) (x y : Nat) (v : α) : Nat → Nat → α :=
  fun a b => if a = x ∧ b = y then v else m a b

/-- The cells visited by the nested loop, in source order: `y` outer,
`x` inner, elements `(x, y)`. -/
def cellList (N : Nat) : List (Nat × Nat) :=
  (List.range N).flatMap fun y => (List.range N).map fun x => (x, y)

/-! ## Randomness model

`random.random()` returns a float in `[0, 1)`; `random.choice(["add",
"remove"])` is a boolean; `random.randint(0, 8)` is a value in `[0, 8]`.
One `RandDraw` packages the three draws `maybe_flip` makes for one set. -/

/-- The random draws consumed by one `maybe_flip` call. -/
structure RandDraw where
  r : ℚ
  r_nonneg : 0 ≤ r
  r_lt_one : r < 1
  opAdd : Bool
  val : Nat
  val_le : val ≤ 8

/-- A fixed draw (used to instantiate witnesses). -/
def d0 : RandDraw := ⟨0, le_refl 0, by norm_num, true, 0, by norm_num⟩

/-! ## Rule mutation (`mutate_rule`, src/1.py lines 52-63) -/

/-- `maybe_flip` body of `mutate_rule`: copy the list into a set, with
probability `rate` add or remove one random value in `[0, 8]` (remove
only if present), and return `sorted(rules)`. -/
def maybe_flip (ruleset : List Nat) (rate : ℚ) (d : RandDraw) : List Nat :=
  let rules : Finset Nat := ruleset.toFinset
  let rules := if d.r < rate then
      (if d.opAdd then insert d.val rules else rules.erase d.val)
    else rules
  rules.sort (· ≤ ·)

/-- `mutate_rule` (src/1.py lines 52-63): applies `maybe_flip` to the
birth list and the survival list, each with its own draws. -/
def mutate_rule (birth survive : List Nat) (mutation_rate : ℚ)
    (d1 d2 : RandDraw) : List Nat × List Nat :=
  (maybe_flip birth mutation_rate d1, maybe_flip survive mutation_rate d2)

/-! ## Neighbor counting (`count_neighbors`, src/1.py lines 65-73) -/

/-- The eight Moore offsets `(dx, dy)` in source iteration order
(`dy` outer, `dx` inner, `(0, 0)` skipped). -/
def neighborOffsets : List (Int × Int) :=
  [(-1, -1), (0, -1), (1, -1), (-1, 0), (1, 0), (-1, 1), (0, 1), (1, 1)]

/-- `count_neighbors` (src/1.py lines 65-73): toroidal Moore-neighbor
count; `(x + dx) % GRID_SIZE` is Python `%`, i.e. `Int.emod` with a
positive modulus. -/
def count_neighbors (N : Nat) (g : Nat → Nat → Bool) (x y : Nat) : Nat :=
  (neighborOffsets.map fun d =>
    if g ((((x : Int) + d.1) % (N : Int)).toNat) ((((y : Int) + d.2) % (N : Int)).toNat)
    then 1 else 0).sum

/-! ## Grid transition (`update_grid`, src/1.py lines 75-97) -/

/-- New value of cell `(x, y)` computed by the loop body of `update_grid`
from the pre-tick grid `g`, the nutrient map `nu` and the mutated sets
`bm`/`sm`: alive cells survive on `neighbors in s_mut or nutrient > 0.9`,
dead cells are born on `neighbors in b_mut and nutrient > 0.1`. -/
def ugVal (N : Nat) (bm sm : List Nat) (nu : Nat → Nat → ℚ)
    (g : Nat → Nat → Bool) (x y : Nat) : Bool :=
  let neighbors := count_neighbors N g x y
  let nutrient_bonus := nu x y
  if g x y then decide (neighbors ∈ sm) || decide ((9 : ℚ)/10 < nutrient_bonus)
  else decide (neighbors ∈ bm) && decide ((1 : ℚ)/10 < nutrient_bonus)

/-- One iteration of the `update_grid` loop: writes the new state of the
visited cell into the fresh `new_grid` buffer and updates `history_map`
in place (`min(h+1, 255)` if the new cell is alive, `max(h-1, 0)` if
dead; `Nat` subtraction is the floor at 0). -/
def ugStep (N : Nat) (bm sm : List Nat) (nu : Nat → Nat → ℚ) (g : Nat → Nat → Bool) :
    ((Nat → Nat → Bool) × (Nat → Nat → Nat)) → Nat × Nat →
    ((Nat → Nat → Bool) × (Nat → Nat → Nat)) :=
  fun acc c =>
    let v := ugVal N bm sm nu g c.1 c.2
    (set2 acc.1 c.1 c.2 v,
     set2 acc.2 c.1 c.2 (if v then min (acc.2 c.1 c.2 + 1) 255 else acc.2 c.1 c.2 - 1))

/-- `update_grid` (src/1.py lines 75-97): draws one mutated rule for the
whole tick, then fills a zero-initialized `new_grid` cell by cell while
updating `history_map` in place; returns the pair
`(new grid, new history)` (the source ends with `grid = new_grid`). -/
def update_grid (N : Nat) (birth survive : List Nat) (mutation : ℚ)
    (d1 d2 : RandDraw) (nu : Nat → Nat → ℚ) (g : Nat → Nat → Bool)
    (hist : Nat → Nat → Nat) : (Nat → Nat → Bool) × (Nat → Nat → Nat) :=
  let ms := mutate_rule birth survive mutation d1 d2
  (cellList N).foldl (ugStep N ms.1 ms.2 nu g) (fun _ _ => false, hist)

/-! ## Nutrient animation (`animate_nutrients`, src/1.py lines 43-50)

`math.sin` is modelled as an abstract function `sinf : ℚ → ℚ` on the
rational value space; where a claim needs it, the hypothesis
`∀ q, -1 ≤ sinf q ∧ sinf q ≤ 1` records the range of the real sine. -/

/-- One iteration of a cell-by-cell in-place loop: overwrite the visited
cell with a value computed from its coordinates and its own old value. -/
def writeStep {α : Type} (F : Nat → Nat → α → α) :
    (Nat → Nat → α) → Nat × Nat → (Nat → Nat → α) :=
  fun m c => set2 m c.1 c.2 (F c.1 c.2 (m c.1 c.2))

/-- One iteration of the `animate_nutrients` loop: the wave uses the
already-incremented phase, the cell blends 70/30 with its own old value
and is clamped to `[0, 1]`. -/
def animStep (sinf : ℚ → ℚ) (phase : ℚ) :
    (Nat → Nat → ℚ) → Nat × Nat → (Nat → Nat → ℚ) :=
  writeStep fun a b v =>
    max 0 (min 1 (7/10 * v +
      3/10 * (1/2 + 1/2 * sinf (phase + (a : ℚ) * (1/10) + (b : ℚ) * (1/10)))))

/-! ## Simulation state and per-tick control flow -/

/-- The process-wide simulation state: `grid`, `nutrient_map`,
`history_map` and `wave_phase` (src/1.py lines 18-22). -/
structure SimState where
  grid : Nat → Nat → Bool
  nutrient : Nat → Nat → ℚ
  history : Nat → Nat → Nat
  wave_phase : ℚ

/-- `animate_nutrients` (src/1.py lines 43-50): `wave_phase += 0.05`
happens FIRST, then every cell is rewritten using the incremented
phase. -/
def animate_nutrients (N : Nat) (sinf : ℚ → ℚ) (st : SimState) : SimState :=
  let phase := st.wave_phase + 1/20
  { st with wave_phase := phase,
            nutrient := (cellList N).foldl (animStep sinf phase) st.nutrient }

/-- One unpaused iteration of the main loop (src/1.py lines 146-149):
`animate_nutrients()` then `update_grid(birth, survive, mutation)`. -/
def step (N : Nat) (sinf : ℚ → ℚ) (birth survive : List Nat) (mutation : ℚ)
    (d1 d2 : RandDraw) (st : SimState) : SimState :=
  let st1 := animate_nutrients N sinf st
  let gh := update_grid N birth survive mutation d1 d2 st1.nutrient st1.grid st1.history
  { st1 with grid := gh.1, history := gh.2 }

/-- A run of consecutive unpaused ticks, one draw pair per tick. -/
def runSim (N : Nat) (sinf : ℚ → ℚ) (birth survive : List Nat) (mutation : ℚ)
    (ds : List (RandDraw × RandDraw)) (st : SimState) : SimState :=
  ds.foldl (fun s d => step N sinf birth survive mutation d.1 d.2 s) st

/-- The cell `(x, y)` is alive in the new state of every tick of the run
(evaluated on the successive post-tick states). -/
def aliveRun (N : Nat) (sinf : ℚ → ℚ) (birth survive : List Nat) (mutation : ℚ)
    (x y : Nat) : List (RandDraw × RandDraw) → SimState → Prop
  | [], _ => True
  | d :: ds, st =>
    let st' := step N sinf birth survive mutation d.1 d.2 st
    st'.grid x y = true ∧ aliveRun N sinf birth survive mutation x y ds st'

/-! ## Main-loop variables (`main`, src/1.py lines 124-157) -/

/-- The rule variables of `main` together with the simulation state:
`DNA` (the displayed rule text) and the parsed `birth`, `survive`,
`mutation`. -/
structure MainState where
  dna : List Char
  birth : List Nat
  survive : List Nat
  mutation : ℚ
  sim : SimState

/-- One unpaused main-loop iteration with no key events: the rule
variables are read but never written. -/
def main_tick (N : Nat) (sinf : ℚ → ℚ) (d : RandDraw × RandDraw)
    (st : MainState) : MainState :=
  { st with sim := step N sinf st.birth st.survive st.mutation d.1 d.2 st.sim }

/-- A run of unpaused main-loop iterations. -/
def runMain (N : Nat) (sinf : ℚ → ℚ) (ds : List (RandDraw × RandDraw))
    (st : MainState) : MainState :=
  ds.foldl (fun s d => main_tick N sinf d s) st

/-- The `KEY_D` handler (src/1.py lines 142-144): `DNA = dna_input_gui()`
reassigns the rule text first, then `parse_dna(DNA)` runs.  On success
the three rule variables are rebound; on failure the `ValueError`
propagates uncaught out of `main` — the `.error` value is the variable
state at that moment, with `dna` already overwritten and `birth`,
`survive`, `mutation` still holding their old values. -/
def load_rule (st : MainState) (text : List Char) : Except MainState MainState :=
  match parse_dna text with
  | some (b, s, m) => .ok { st with dna := text, birth := b, survive := s, mutation := m }
  | none => .error { st with dna := text }

/-! ## Conway reference transition (modelled from the spec)

For the refinement claim, the "exact Conway's Game of Life transition"
on the same torus, written independently of the engine: wraparound by
`Nat` modular arithmetic, alive cells survive on 2 or 3 neighbors, dead
cells are born on exactly 3. -/

/-- Spec-side toroidal Moore-neighbor count. -/
def conwayNeighbors (N : Nat) (g : Nat → Nat → Bool) (x y : Nat) : Nat :=
  let xm := (x + (N - 1)) % N
  let xp := (x + 1) % N
  let ym := (y + (N - 1)) % N
  let yp := (y + 1) % N
  b2n (g xm ym) + b2n (g x ym) + b2n (g xp ym) + b2n (g xm y) +
    b2n (g xp y) + b2n (g xm yp) + b2n (g x yp) + b2n (g xp yp)

/-- Spec-side Conway successor of one cell. -/
def conwayStep (N : Nat) (g : Nat → Nat → Bool) (x y : Nat) : Bool :=
  let n := conwayNeighbors N g x y
  if g x y then decide (n = 2 ∨ n = 3) else decide (n = 3)

/-! ## Pointwise reading of the in-place loops -/

theorem set2_self {α : Type} (m : Nat → Nat → α) (x y : Nat) (v : α) :
    set2 m x y v x y = v := by
  simp [set2]

theorem set2_ne {α : Type} (m : Nat → Nat → α) (x y a b : Nat) (v : α)
    (h : ¬(a = x ∧ b = y)) : set2 m x y v a b = m a b := by
  simp [set2, h]

theorem cellList_mem {N x y : Nat} : (x, y) ∈ cellList N ↔ x < N ∧ y < N := by
  constructor
  · intro h
    simp only [cellList, List.mem_flatMap, List.mem_map, List.mem_range] at h
    obtain ⟨b, hb, a, ha, heq⟩ := h
    cases heq
    exact ⟨ha, hb⟩
  · intro ⟨hx, hy⟩
    simp only [cellList, List.mem_flatMap, List.mem_map, List.mem_range]
    exact ⟨y, hy, x, hx, rfl⟩

theorem cellList_nodup (N : Nat) : (cellList N).Nodup := by
  rw [cellList, List.nodup_flatMap]
  constructor
  · intro y _
    refine List.Nodup.map ?_ (List.nodup_range N)
    intro a b hab
    simpa using congrArg Prod.fst hab
  · have h := List.nodup_range N
    rw [List.Nodup] at h
    refine h.imp ?_
    intro a b hab p hpa hpb
    simp only [Function.onFun, List.mem_map] at hpa hpb
    obtain ⟨xa, -, rfl⟩ := hpa
    obtain ⟨xb, -, h2⟩ := hpb
    have h3 : b = a := by simpa using congrArg Prod.snd h2
    exact hab h3.symm

/-- A cell not visited by the loop keeps its initial value. -/
theorem foldl_writeStep_not_mem {α : Type} (F : Nat → Nat → α → α)
    (l : List (Nat × Nat)) (m0 : Nat → Nat → α) (x y : Nat)
    (h : (x, y) ∉ l) : (l.foldl (writeStep F) m0) x y = m0 x y := by
  induction l generalizing m0 with
  | nil => rfl
  | cons c t ih =>
    simp only [List.mem_cons, not_or] at h
    rw [List.foldl_cons, ih _ h.2]
    have hne : ¬(x = c.1 ∧ y = c.2) := by
      intro hc
      exact h.1 (Prod.ext_iff.mpr ⟨hc.1, hc.2⟩)
    exact set2_ne _ _ _ _ _ _ hne

/-- A cell visited exactly once ends with the value computed from its
pre-loop state. -/
theorem foldl_writeStep_get {α : Type} (F : Nat → Nat → α → α)
    (l : List (Nat × Nat)) (m0 : Nat → Nat → α) (x y : Nat)
    (hnd : l.Nodup) (hm : (x, y) ∈ l) :
    (l.foldl (writeStep F) m0) x y = F x y (m0 x y) := by
  induction l generalizing m0 with
  | nil => cases hm
  | cons c t ih =>
    rcases List.mem_cons.mp hm with hc | ht
    · have hxt : (x, y) ∉ t := by
        rw [← hc] at hnd
        exact (List.nodup_cons.mp hnd).1
      rw [List.foldl_cons, foldl_writeStep_not_mem _ _ _ _ _ hxt, ← hc]
      exact set2_self _ _ _ _
    · have hne : ¬(x = c.1 ∧ y = c.2) := by
        intro hc
        rw [(Prod.ext hc.1 hc.2 : (x, y) = c)] at ht
        exact (List.nodup_cons.mp hnd).1 ht
      rw [List.foldl_cons, ih _ (List.nodup_cons.mp hnd).2 ht,
        show (writeStep F m0 c) x y = m0 x y from set2_ne _ _ _ _ _ _ hne]

/-- `update_grid` loop, unvisited cell: both buffers keep their values. -/
theorem ugFold_not_mem (N : Nat) (bm sm : List Nat) (nu : Nat → Nat → ℚ)
    (g : Nat → Nat → Bool) (l : List (Nat × Nat))
    (a : (Nat → Nat → Bool) × (Nat → Nat → Nat)) (x y : Nat)
    (h : (x, y) ∉ l) :
    (l.foldl (ugStep N bm sm nu g) a).1 x y = a.1 x y ∧
      (l.foldl (ugStep N bm sm nu g) a).2 x y = a.2 x y := by
  induction l generalizing a with
  | nil => exact ⟨rfl, rfl⟩
  | cons c t ih =>
    simp only [List.mem_cons, not_or] at h
    have hne : ¬(x = c.1 ∧ y = c.2) := by
      intro hc
      exact h.1 (Prod.ext_iff.mpr ⟨hc.1, hc.2⟩)
    rw [List.foldl_cons]
    rcases ih (ugStep N bm sm nu g a c) h.2 with ⟨h1, h2⟩
    constructor
    · rw [h1]
      exact set2_ne _ _ _ _ _ _ hne
    · rw [h2]
      exact set2_ne _ _ _ _ _ _ hne

/-- `update_grid` loop, visited cell: the new grid holds the transition
value and the history buffer is bumped from its pre-loop value. -/
theorem ugFold_get (N : Nat) (bm sm : List Nat) (nu : Nat → Nat → ℚ)
    (g : Nat → Nat → Bool) (l : List (Nat × Nat))
    (a : (Nat → Nat → Bool) × (Nat → Nat → Nat)) (x y : Nat)
    (hnd : l.Nodup) (hm : (x, y) ∈ l) :
    (l.foldl (ugStep N bm sm nu g) a).1 x y = ugVal N bm sm nu g x y ∧
      (l.foldl (ugStep N bm sm nu g) a).2 x y =
        (if ugVal N bm sm nu g x y then min (a.2 x y + 1) 255 else a.2 x y - 1) := by
  induction l generalizing a with
  | nil => cases hm
  | cons c t ih =>
    rcases List.mem_cons.mp hm with hc | ht
    · cases hc
      have hxt : (x, y) ∉ t := (List.nodup_cons.mp hnd).1
      rw [List.foldl_cons]
      rcases ugFold_not_mem N bm sm nu g t (ugStep N bm sm nu g a (x, y)) x y hxt with ⟨h1, h2⟩
      constructor
      · rw [h1]
        exact set2_self _ _ _ _
      · rw [h2]
        exact set2_self _ _ _ _
    · have hne : ¬(x = c.1 ∧ y = c.2) := by
        intro hc
        rw [(Prod.ext hc.1 hc.2 : (x, y) = c)] at ht
        exact (List.nodup_cons.mp hnd).1 ht
      rw [List.foldl_cons]
      rcases ih (ugStep N bm sm nu g a c) (List.nodup_cons.mp hnd).2 ht with ⟨h1, h2⟩
      refine ⟨h1, ?_⟩
      rw [h2, show (ugStep N bm sm nu g a c).2 x y = a.2 x y from set2_ne _ _ _ _ _ _ hne]

/-- Pointwise reading of `update_grid` on its domain. -/
theorem update_grid_get (N : Nat) (birth survive : List Nat) (mutation : ℚ)
    (d1 d2 : RandDraw) (nu : Nat → Nat → ℚ) (g : Nat → Nat → Bool)
    (hist : Nat → Nat → Nat) (x y : Nat) (hx : x < N) (hy : y < N) :
    (update_grid N birth survive mutation d1 d2 nu g hist).1 x y =
      ugVal N (mutate_rule birth survive mutation d1 d2).1
        (mutate_rule birth survive mutation d1 d2).2 nu g x y ∧
    (update_grid N birth survive mutation d1 d2 nu g hist).2 x y =
      (if ugVal N (mutate_rule birth survive mutation d1 d2).1
          (mutate_rule birth survive mutation d1 d2).2 nu g x y
       then min (hist x y + 1) 255 else hist x y - 1) :=
  ugFold_get N _ _ nu g (cellList N) (fun _ _ => false, hist) x y
    (cellList_nodup N) (cellList_mem.mpr ⟨hx, hy⟩)

/-- Pointwise reading of `animate_nutrients` on its domain: the wave uses
the phase incremented at the start of the call. -/
theorem animate_nutrient_get (N : Nat) (sinf : ℚ → ℚ) (st : SimState)
    (x y : Nat) (hx : x < N) (hy : y < N) :
    (animate_nutrients N sinf st).nutrient x y =
      max 0 (min 1 (7/10 * st.nutrient x y +
        3/10 * (1/2 + 1/2 * sinf (st.wave_phase + 1/20 + (x : ℚ) * (1/10) + (y : ℚ) * (1/10))))) :=
  foldl_writeStep_get _ (cellList N) st.nutrient x y
    (cellList_nodup N) (cellList_mem.mpr ⟨hx, hy⟩)

theorem animate_phase (N : Nat) (sinf : ℚ → ℚ) (st : SimState) :
    (animate_nutrients N sinf st).wave_phase = st.wave_phase + 1/20 := rfl

theorem animate_grid (N : Nat) (sinf : ℚ → ℚ) (st : SimState) :
    (animate_nutrients N sinf st).grid = st.grid := rfl

/-- Pointwise reading of one tick's grid: pre-tick state grid, post-animate
nutrient field, one mutated rule pair for the whole tick. -/
theorem step_grid_get (N : Nat) (sinf : ℚ → ℚ) (birth survive : List Nat)
    (mutation : ℚ) (d1 d2 : RandDraw) (st : SimState) (x y : Nat)
    (hx : x < N) (hy : y < N) :
    (step N sinf birth survive mutation d1 d2 st).grid x y =
      ugVal N (mutate_rule birth survive mutation d1 d2).1
        (mutate_rule birth survive mutation d1 d2).2
        (animate_nutrients N sinf st).nutrient st.grid x y :=
  (update_grid_get N birth survive mutation d1 d2
    (animate_nutrients N sinf st).nutrient st.grid st.history x y hx hy).1

/-- Pointwise reading of one tick's history: `+1` capped at 255 on cells
alive in the new grid, `-1` floored at 0 on dead ones. -/
theorem step_history_get (N : Nat) (sinf : ℚ → ℚ) (birth survive : List Nat)
    (mutation : ℚ) (d1 d2 : RandDraw) (st : SimState) (x y : Nat)
    (hx : x < N) (hy : y < N) :
    (step N sinf birth survive mutation d1 d2 st).history x y =
      (if (step N sinf birth survive mutation d1 d2 st).grid x y
       then min (st.history x y + 1) 255 else st.history x y - 1) := by
  have h := update_grid_get N birth survive mutation d1 d2
    (animate_nutrients N sinf st).nutrient st.grid st.history x y hx hy
  calc (step N sinf birth survive mutation d1 d2 st).history x y
      = (update_grid N birth survive mutation d1 d2
          (animate_nutrients N sinf st).nutrient st.grid st.history).2 x y := rfl
    _ = _ := by rw [h.2, ← h.1]; rfl

/-! ## Mutation at rate zero and the Conway bridge -/

theorem maybe_flip_zero (l : List Nat) (d : RandDraw) :
    maybe_flip l 0 d = l.toFinset.sort (· ≤ ·) := by
  rw [maybe_flip]
  simp [not_lt.mpr d.r_nonneg]

theorem mem_maybe_flip_zero (l : List Nat) (d : RandDraw) (n : Nat) :
    n ∈ maybe_flip l 0 d ↔ n ∈ l := by
  rw [maybe_flip_zero, Finset.mem_sort, List.mem_toFinset]

theorem emod_toNat_self (N x : Nat) (hx : x < N) :
    (((x : Int) + 0) % (N : Int)).toNat = x := by
  rw [add_zero, Int.emod_eq_of_lt (Int.natCast_nonneg x) (by exact_mod_cast hx)]
  exact Int.toNat_natCast x

theorem emod_toNat_add_one (N x : Nat) :
    (((x : Int) + 1) % (N : Int)).toNat = (x + 1) % N := by
  rw [show ((x : Int) + 1) = ((x + 1 : Nat) : Int) by push_cast; ring,
    ← Int.natCast_mod, Int.toNat_natCast]

theorem emod_toNat_sub_one (N x : Nat) (hN : 0 < N) :
    (((x : Int) + -1) % (N : Int)).toNat = (x + (N - 1)) % N := by
  have h1 : (x : Int) + -1 = ((x + (N - 1) : Nat) : Int) + (N : Int) * (-1) := by
    have : ((N - 1 : Nat) : Int) = (N : Int) - 1 := by
      omega
    push_cast [this]
    ring
  rw [h1, Int.add_mul_emod_self_left, ← Int.natCast_mod, Int.toNat_natCast]

/-- The engine's `Int.emod` neighbor count agrees with the spec-side
`Nat`-mod count on the grid domain. -/
theorem counts_eq (N : Nat) (g : Nat → Nat → Bool) (x y : Nat)
    (hN : 0 < N) (hx : x < N) (hy : y < N) :
    count_neighbors N g x y = conwayNeighbors N g x y := by
  simp only [count_neighbors, neighborOffsets, conwayNeighbors, List.map_cons,
    List.map_nil, List.sum_cons, List.sum_nil, b2n,
    emod_toNat_self N x hx, emod_toNat_self N y hy,
    emod_toNat_add_one N x, emod_toNat_add_one N y,
    emod_toNat_sub_one N x hN, emod_toNat_sub_one N y hN]
  ring

/-- With rate 0 and rule `B3/S23`, an inert nutrient value at the cell
makes the engine's cell value the Conway one. -/
theorem ugVal_conway (N : Nat) (d1 d2 : RandDraw) (nu : Nat → Nat → ℚ)
    (g : Nat → Nat → Bool) (x y : Nat) (hN : 0 < N) (hx : x < N) (hy : y < N)
    (hlo : (1 : ℚ)/10 < nu x y) (hhi : nu x y ≤ 9/10) :
    ugVal N (mutate_rule [3] [2, 3] 0 d1 d2).1 (mutate_rule [3] [2, 3] 0 d1 d2).2
      nu g x y = conwayStep N g x y := by
  rw [ugVal, conwayStep, ← counts_eq N g x y hN hx hy]
  have h9 : ¬((9 : ℚ)/10 < nu x y) := not_lt.mpr hhi
  have h1 : (1 : ℚ)/10 < nu x y := hlo
  by_cases hg : g x y
  · simp only [hg, if_true]
    have hmem := mem_maybe_flip_zero [2, 3] d2 (count_neighbors N g x y)
    simp [mutate_rule, h9, hmem, List.mem_cons, List.mem_singleton]
  · simp only [hg, if_false]
    have hmem := mem_maybe_flip_zero [3] d1 (count_neighbors N g x y)
    simp [mutate_rule, h1, hmem, List.mem_singleton]
    intro _
    linarith

/-- The clamped blend stays between `0.7·lo` and `0.7·hi + 0.3` when the
old value lies in `[lo, hi] ⊆ [0, 1]` and the sine stays in `[-1, 1]`. -/
theorem animate_nutrient_bounds (N : Nat) (sinf : ℚ → ℚ) (st : SimState)
    (x y : Nat) (hx : x < N) (hy : y < N)
    (hsin : ∀ q, -1 ≤ sinf q ∧ sinf q ≤ 1) (lo hi : ℚ)
    (hlo : lo ≤ st.nutrient x y) (hhi : st.nutrient x y ≤ hi)
    (h0 : 0 ≤ lo) (h1 : hi ≤ 1) :
    7/10 * lo ≤ (animate_nutrients N sinf st).nutrient x y ∧
      (animate_nutrients N sinf st).nutrient x y ≤ 7/10 * hi + 3/10 := by
  rw [animate_nutrient_get N sinf st x y hx hy]
  rcases hsin (st.wave_phase + 1/20 + (x : ℚ) * (1/10) + (y : ℚ) * (1/10)) with ⟨hs1, hs2⟩
  have hin_lo : (0 : ℚ) ≤ 7/10 * st.nutrient x y +
      3/10 * (1/2 + 1/2 * sinf (st.wave_phase + 1/20 + (x : ℚ) * (1/10) + (y : ℚ) * (1/10))) := by
    nlinarith
  have hin_hi : 7/10 * st.nutrient x y +
      3/10 * (1/2 + 1/2 * sinf (st.wave_phase + 1/20 + (x : ℚ) * (1/10) + (y : ℚ) * (1/10))) ≤ 1 := by
    nlinarith
  rw [min_eq_right hin_hi, max_eq_right hin_lo]
  constructor <;> nlinarith

/-- One tick with rate 0 and rule `B3/S23` from a nutrient field bounded
in an inert-preserving band computes the Conway successor at the cell. -/
theorem step_conway (N : Nat) (sinf : ℚ → ℚ) (d1 d2 : RandDraw) (st : SimState)
    (x y : Nat) (hN : 0 < N) (hx : x < N) (hy : y < N)
    (hsin : ∀ q, -1 ≤ sinf q ∧ sinf q ≤ 1) (lo hi : ℚ)
    (hlo : lo ≤ st.nutrient x y) (hhi : st.nutrient x y ≤ hi)
    (h0 : 0 ≤ lo) (h1 : hi ≤ 1)
    (hband1 : (1 : ℚ)/10 < 7/10 * lo) (hband2 : 7/10 * hi + 3/10 ≤ 9/10) :
    (step N sinf [3] [2, 3] 0 d1 d2 st).grid x y = conwayStep N st.grid x y := by
  rw [step_grid_get N sinf [3] [2, 3] 0 d1 d2 st x y hx hy]
  rcases animate_nutrient_bounds N sinf st x y hx hy hsin lo hi hlo hhi h0 h1 with ⟨hb1, hb2⟩
  exact ugVal_conway N d1 d2 _ st.grid x y hN hx hy (lt_of_lt_of_le hband1 hb1)
    (le_trans hb2 hband2)

/-- The nutrient field of a tick's result is the animated one. -/
theorem step_nutrient (N : Nat) (sinf : ℚ → ℚ) (birth survive : List Nat)
    (mutation : ℚ) (d1 d2 : RandDraw) (st : SimState) :
    (step N sinf birth survive mutation d1 d2 st).nutrient =
      (animate_nutrients N sinf st).nutrient := rfl

/-- `conwayStep` reads the grid only inside the domain, so it respects
agreement on the domain. -/
theorem conwayStep_congr (N : Nat) (g g' : Nat → Nat → Bool) (x y : Nat)
    (hN : 0 < N) (hx : x < N) (hy : y < N)
    (hagree : ∀ a b, a < N → b < N → g a b = g' a b) :
    conwayStep N g x y = conwayStep N g' x y := by
  have hm : ∀ a : Nat, a % N < N := fun a => Nat.mod_lt a hN
  rw [conwayStep, conwayStep, conwayNeighbors, conwayNeighbors]
  rw [hagree x y hx hy,
    hagree _ _ (hm (x + (N - 1))) (hm (y + (N - 1))),
    hagree _ _ hx (hm (y + (N - 1))),
    hagree _ _ (hm (x + 1)) (hm (y + (N - 1))),
    hagree _ _ (hm (x + (N - 1))) hy,
    hagree _ _ (hm (x + 1)) hy,
    hagree _ _ (hm (x + (N - 1))) (hm (y + 1)),
    hagree _ _ hx (hm (y + 1)),
    hagree _ _ (hm (x + 1)) (hm (y + 1))]

/-! ## Concrete patterns for the standard-Life claim -/

/-- A 2×2 block at `(1,1)-(2,2)`. -/
def blockG : Nat → Nat → Bool :=
  fun x y => decide ((x = 1 ∨ x = 2) ∧ (y = 1 ∨ y = 2))

/-- A horizontal blinker in row 2. -/
def blinkG : Nat → Nat → Bool :=
  fun x y => decide (y = 2 ∧ (x = 1 ∨ x = 2 ∨ x = 3))

/-- The everywhere-`0.5` nutrient field. -/
def halfNu : Nat → Nat → ℚ := fun _ _ => 1/2

theorem conway_block_fixed : ∀ x, x < 4 → ∀ y, y < 4 →
    conwayStep 4 blockG x y = blockG x y := by decide

theorem conway_blink_two : ∀ x, x < 5 → ∀ y, y < 5 →
    conwayStep 5 (fun a b => conwayStep 5 blinkG a b) x y = blinkG x y := by decide

/-! ## Wraparound characterization for a single alive cell -/

theorem modm_iff (N x : Nat) (hN : 3 ≤ N) (hx : x < N) :
    (x + (N - 1)) % N = 0 ↔ x = 1 := by
  constructor
  · intro h
    obtain ⟨k, hk⟩ := Nat.dvd_of_mod_eq_zero h
    have hk2 : k < 2 := by
      by_contra hk2
      push_neg at hk2
      have h2 : 2 * N ≤ N * k := by
        calc 2 * N = N * 2 := by ring
          _ ≤ N * k := Nat.mul_le_mul_left N hk2
      omega
    interval_cases k <;> omega
  · intro h
    subst h
    have h1 : 1 + (N - 1) = N := by omega
    rw [h1, Nat.mod_self]

theorem modp_iff (N x : Nat) (hN : 3 ≤ N) (hx : x < N) :
    (x + 1) % N = 0 ↔ x = N - 1 := by
  constructor
  · intro h
    obtain ⟨k, hk⟩ := Nat.dvd_of_mod_eq_zero h
    have hk2 : k < 2 := by
      by_contra hk2
      push_neg at hk2
      have h2 : 2 * N ≤ N * k := by
        calc 2 * N = N * 2 := by ring
          _ ≤ N * k := Nat.mul_le_mul_left N hk2
      omega
    interval_cases k <;> omega
  · intro h
    subst h
    have h1 : N - 1 + 1 = N := by omega
    rw [h1, Nat.mod_self]

/-- The grid whose only alive cell is `(0, 0)`. -/
def singleG : Nat → Nat → Bool := fun a b => decide (a = 0 ∧ b = 0)

/-- C7: neighbor counting is toroidal Moore: on an `N×N` grid (`N ≥ 3`,
so that the eight listed wraparound neighbors are distinct cells) whose
only alive cell is `(0,0)`, the count is exactly 1 at `(N-1,N-1)`,
`(N-1,0)`, `(0,N-1)`, `(1,1)`, `(1,0)`, `(0,1)`, `(N-1,1)`, `(1,N-1)`
and 0 at every other cell, including `(0,0)` itself. -/
theorem c7_toroidal_single_cell (N x y : Nat) (hN : 3 ≤ N) (hx : x < N) (hy : y < N) :
    count_neighbors N singleG x y =
      (if (x, y) ∈ [(N-1, N-1), (N-1, 0), (0, N-1), (1, 1), (1, 0), (0, 1),
        (N-1, 1), (1, N-1)] then 1 else 0) := by
  rw [counts_eq N singleG x y (by omega) hx hy, conwayNeighbors]
  simp only [singleG, b2n, decide_eq_true_eq,
    modm_iff N x hN hx, modm_iff N y hN hy, modp_iff N x hN hx, modp_iff N y hN hy,
    List.mem_cons, List.not_mem_nil, or_false, Prod.mk.injEq]
  split_ifs <;> omega

/-! ## Parse-level lemmas -/

theorem digit?_le_nine (c : Char) (d : Nat) (h : digit? c = some d) : d ≤ 9 := by
  rw [digit?] at h
  by_cases hc : isDig c = true
  · rw [if_pos hc] at h
    cases h
    rw [isDig, Bool.and_eq_true, decide_eq_true_eq, decide_eq_true_eq] at hc
    omega
  · rw [if_neg hc] at h
    cases h

theorem parseDigits_le_nine (l : List Char) (ds : List Nat)
    (h : parseDigits l = some ds) : ∀ v ∈ ds, v ≤ 9 := by
  induction l generalizing ds with
  | nil =>
    rw [parseDigits] at h
    cases h
    intro v hv
    cases hv
  | cons c t ih =>
    rw [parseDigits] at h
    cases hd : digit? c with
    | none => rw [hd] at h; cases h
    | some d =>
      rw [hd] at h
      cases ht : parseDigits t with
      | none => rw [ht] at h; cases h
      | some ds2 =>
        rw [ht] at h
        cases h
        intro v hv
        rcases List.mem_cons.mp hv with hv | hv
        · rw [hv]; exact digit?_le_nine c d hd
        · exact ih ds2 ht v hv

theorem parseDigits_isSome (l : List Char) (h : ∀ c ∈ l, isDig c = true) :
    (parseDigits l).isSome := by
  induction l with
  | nil => rw [parseDigits]; rfl
  | cons c t ih =>
    rw [parseDigits, digit?, if_pos (h c (List.mem_cons_self c t))]
    have h2 := ih fun c2 hc2 => h c2 (List.mem_cons_of_mem c hc2)
    cases ht : parseDigits t with
    | none => rw [ht] at h2; cases h2
    | some ds => rfl

theorem pySplit_not_mem (sep : Char) (l : List Char) (h : sep ∉ l) :
    pySplit sep l = [l] := by
  induction l with
  | nil => rfl
  | cons c t ih =>
    simp only [List.mem_cons, not_or] at h
    rw [pySplit, if_neg fun hc => h.1 hc.symm, ih h.2]

theorem pySplit_append (sep : Char) (a b : List Char) (ha : sep ∉ a) :
    pySplit sep (a ++ sep :: b) = a :: pySplit sep b := by
  induction a with
  | nil => simp [pySplit]
  | cons c t ih =>
    simp only [List.mem_cons, not_or] at ha
    rw [List.cons_append, pySplit, if_neg fun hc => ha.1 hc.symm, ih ha.2]

theorem pySplit_two (sep : Char) (a b : List Char) (ha : sep ∉ a) (hb : sep ∉ b) :
    pySplit sep (a ++ sep :: b) = [a, b] := by
  rw [pySplit_append sep a b ha, pySplit_not_mem sep b hb]

theorem isDig_mem_takeWhile {l : List Char} {c : Char}
    (h : c ∈ l.takeWhile isDig) : isDig c = true := by
  induction l with
  | nil => cases h
  | cons c2 t ih =>
    rw [List.takeWhile_cons] at h
    by_cases h2 : isDig c2 = true
    · rw [if_pos h2] at h
      rcases List.mem_cons.mp h with hc | hc
      · rw [hc]; exact h2
      · exact ih hc
    · rw [if_neg h2] at h
      cases h

/-- Characters of a string accepted by the unsigned float parser are
digits or the decimal point. -/
theorem pyFloatCore_chars (l : List Char) (h : (pyFloatCore l).isSome = true) :
    ∀ c ∈ l, isDig c = true ∨ c = '.' := by
  intro c hc
  rw [pyFloatCore] at h
  rw [← List.takeWhile_append_dropWhile (p := isDig) (l := l)] at hc
  rcases List.mem_append.mp hc with hc | hc
  · exact Or.inl (isDig_mem_takeWhile hc)
  · cases hd : l.dropWhile isDig with
    | nil => rw [hd] at hc; cases hc
    | cons c2 t2 =>
      rw [hd] at h hc
      by_cases hcond : (c2 = '.' && t2.all isDig && !(List.isEmpty (l.takeWhile isDig) && t2.isEmpty)) = true
      · rw [Bool.and_eq_true, Bool.and_eq_true] at hcond
        rcases List.mem_cons.mp hc with hc | hc
        · right
          rw [hc]
          exact of_decide_eq_true hcond.1.1
        · left
          exact List.all_eq_true.mp hcond.1.2 c hc
      · simp only [hcond, if_false] at h
        cases h

theorem pyFloat?_chars (l : List Char) (h : (pyFloat? l).isSome = true) :
    ∀ c ∈ l, isDig c = true ∨ c = '.' ∨ c = '+' ∨ c = '-' := by
  intro c hc
  cases l with
  | nil => cases hc
  | cons c0 t =>
    rw [pyFloat?] at h
    by_cases h0 : c0 = '+'
    · rw [if_pos h0] at h
      rcases List.mem_cons.mp hc with hc | hc
      · right; right; left; rw [hc]; exact h0
      · rcases pyFloatCore_chars t h c hc with h2 | h2
        · exact Or.inl h2
        · exact Or.inr (Or.inl h2)
    · rw [if_neg h0] at h
      by_cases h1 : c0 = '-'
      · rw [if_pos h1] at h
        have h' : (pyFloatCore t).isSome = true := by
          cases hpc : pyFloatCore t
          · rw [hpc] at h; cases h
          · rfl
        rcases List.mem_cons.mp hc with hc | hc
        · right; right; right; rw [hc]; exact h1
        · rcases pyFloatCore_chars t h' c hc with h2 | h2
          · exact Or.inl h2
          · exact Or.inr (Or.inl h2)
      · rw [if_neg h1] at h
        rcases pyFloatCore_chars (c0 :: t) h c hc with h2 | h2
        · exact Or.inl h2
        · exact Or.inr (Or.inl h2)

theorem pyFloat?_of_core (l : List Char) (h : (pyFloatCore l).isSome = true) :
    (pyFloat? l).isSome = true := by
  cases l with
  | nil => exact absurd h (by decide)
  | cons c0 tt =>
    rw [pyFloat?]
    by_cases h0 : c0 = '+'
    · exfalso
      subst h0
      simp +decide [pyFloatCore, List.takeWhile_cons, List.dropWhile_cons] at h
    · rw [if_neg h0]
      by_cases h1 : c0 = '-'
      · exfalso
        subst h1
        simp +decide [pyFloatCore, List.takeWhile_cons, List.dropWhile_cons] at h
      · rw [if_neg h1]
        exact h

/-! ## The spec grammar (modelled from the spec)

Grammar `B<digits>/S<digits>|M<float>` of spec section 4.1: literal
markers `B`, `S`, `M`, the separators `/` and `|`, digit runs, and a
non-negative decimal float (no sign). -/

/-- Spec-side grammar acceptance. -/
def matchesGrammar (l : List Char) : Bool :=
  match l with
  | c :: t =>
    (c == 'B') &&
      (match t.dropWhile isDig with
       | c2 :: r =>
         (c2 == '/') &&
           (match r with
            | c3 :: t2 =>
              (c3 == 'S') &&
                (match t2.dropWhile isDig with
                 | c4 :: r2 =>
                   (c4 == '|') &&
                     (match r2 with
                      | c5 :: t3 => (c5 == 'M') && (pyFloatCore t3).isSome
                      | [] => false)
                 | [] => false)
            | [] => false)
       | [] => false)
  | [] => false

example : matchesGrammar "B3/S23|M0.01".toList = true := by decide
example : matchesGrammar "A3/S23|M0.01".toList = false := by decide
example : matchesGrammar "B3S23M0.01".toList = false := by decide

/-- Every string of the grammar parses successfully. -/
theorem matchesGrammar_parse (l : List Char) (h : matchesGrammar l = true) :
    (parse_dna l).isSome = true := by
  cases l with
  | nil => cases h
  | cons c t =>
    rw [matchesGrammar] at h
    cases hr : t.dropWhile isDig with
    | nil => rw [hr] at h; simp at h
    | cons c2 r =>
      rw [hr] at h
      simp only [Bool.and_eq_true, beq_iff_eq] at h
      obtain ⟨rfl, rfl, h⟩ := h
      cases r with
      | nil => simp at h
      | cons c3 t2 =>
        simp only [Bool.and_eq_true, beq_iff_eq] at h
        obtain ⟨rfl, h⟩ := h
        cases hr2 : t2.dropWhile isDig with
        | nil => rw [hr2] at h; simp at h
        | cons c4 r2 =>
          rw [hr2] at h
          simp only [Bool.and_eq_true, beq_iff_eq] at h
          obtain ⟨rfl, h⟩ := h
          cases r2 with
          | nil => simp at h
          | cons c5 t3 =>
            simp only [Bool.and_eq_true, beq_iff_eq] at h
            obtain ⟨rfl, hfl⟩ := h
            have htw1 : ∀ a ∈ t.takeWhile isDig, isDig a = true :=
              fun a ha => isDig_mem_takeWhile ha
            have htw2 : ∀ a ∈ t2.takeWhile isDig, isDig a = true :=
              fun a ha => isDig_mem_takeWhile ha
            have ht3 : ∀ a ∈ t3, isDig a = true ∨ a = '.' :=
              pyFloatCore_chars t3 hfl
            have hsl3 : '/' ∉ t3 := by
              intro hmem
              rcases ht3 '/' hmem with hd | hd
              · exact absurd hd (by decide)
              · exact absurd hd (by decide)
            have hbar3 : '|' ∉ t3 := by
              intro hmem
              rcases ht3 '|' hmem with hd | hd
              · exact absurd hd (by decide)
              · exact absurd hd (by decide)
            have ht : t = t.takeWhile isDig ++ '/' :: 'S' :: t2 := by
              conv_lhs => rw [← List.takeWhile_append_dropWhile (p := isDig) (l := t)]
              rw [hr]
            have ht2 : t2 = t2.takeWhile isDig ++ '|' :: 'M' :: t3 := by
              conv_lhs => rw [← List.takeWhile_append_dropWhile (p := isDig) (l := t2)]
              rw [hr2]
            have hsp1 : pySplit '/' ('B' :: t) =
                ['B' :: t.takeWhile isDig, 'S' :: t2] := by
              conv_lhs => rw [ht]
              rw [show ('B' :: (t.takeWhile isDig ++ '/' :: 'S' :: t2)) =
                  (('B' :: t.takeWhile isDig) ++ '/' :: ('S' :: t2)) from rfl]
              refine pySplit_two '/' _ _ ?_ ?_
              · intro hmem
                rcases List.mem_cons.mp hmem with hd | hd
                · exact absurd hd (by decide)
                · exact absurd (htw1 '/' hd) (by decide)
              · rw [ht2]
                intro hmem
                rcases List.mem_cons.mp hmem with hd | hd
                · exact absurd hd (by decide)
                · rcases List.mem_append.mp hd with hd | hd
                  · exact absurd (htw2 '/' hd) (by decide)
                  · rcases List.mem_cons.mp hd with hd | hd
                    · exact absurd hd (by decide)
                    · rcases List.mem_cons.mp hd with hd | hd
                      · exact absurd hd (by decide)
                      · exact hsl3 hd
            have hsp2 : pySplit '|' ('S' :: t2) =
                ['S' :: t2.takeWhile isDig, 'M' :: t3] := by
              conv_lhs => rw [ht2]
              rw [show ('S' :: (t2.takeWhile isDig ++ '|' :: 'M' :: t3)) =
                  (('S' :: t2.takeWhile isDig) ++ '|' :: ('M' :: t3)) from rfl]
              refine pySplit_two '|' _ _ ?_ ?_
              · intro hmem
                rcases List.mem_cons.mp hmem with hd | hd
                · exact absurd hd (by decide)
                · exact absurd (htw2 '|' hd) (by decide)
              · intro hmem
                rcases List.mem_cons.mp hmem with hd | hd
                · exact absurd hd (by decide)
                · exact hbar3 hd
            obtain ⟨bs, hbs⟩ := Option.isSome_iff_exists.mp
              (parseDigits_isSome (t.takeWhile isDig) htw1)
            obtain ⟨ss, hss⟩ := Option.isSome_iff_exists.mp
              (parseDigits_isSome (t2.takeWhile isDig) htw2)
            obtain ⟨q, hq⟩ := Option.isSome_iff_exists.mp (pyFloat?_of_core t3 hfl)
            rw [parse_dna, hsp1]
            simp only [hsp2, List.drop_succ_cons, List.drop_zero, hbs, hss, hq]
            rfl

/-! ## Run-level helpers -/

/-- The main loop never writes the rule variables. -/
theorem runMain_rule_fixed (N : Nat) (sinf : ℚ → ℚ)
    (ds : List (RandDraw × RandDraw)) (st : MainState) :
    (runMain N sinf ds st).dna = st.dna ∧
    (runMain N sinf ds st).birth = st.birth ∧
    (runMain N sinf ds st).survive = st.survive ∧
    (runMain N sinf ds st).mutation = st.mutation := by
  induction ds generalizing st with
  | nil => exact ⟨rfl, rfl, rfl, rfl⟩
  | cons d t ih => exact ih (main_tick N sinf d st)

/-- One tick keeps a history cell at most 255. -/
theorem step_history_le (N : Nat) (sinf : ℚ → ℚ) (birth survive : List Nat)
    (mutation : ℚ) (d1 d2 : RandDraw) (st : SimState) (x y : Nat)
    (hx : x < N) (hy : y < N) (hb : st.history x y ≤ 255) :
    (step N sinf birth survive mutation d1 d2 st).history x y ≤ 255 := by
  rw [step_history_get N sinf birth survive mutation d1 d2 st x y hx hy]
  by_cases hg : (step N sinf birth survive mutation d1 d2 st).grid x y = true
  · rw [if_pos hg]
    exact min_le_right _ _
  · rw [if_neg hg]
    omega

theorem runSim_history_le (N : Nat) (sinf : ℚ → ℚ) (birth survive : List Nat)
    (mutation : ℚ) (ds : List (RandDraw × RandDraw)) (st : SimState)
    (hb : ∀ x y, x < N → y < N → st.history x y ≤ 255) :
    ∀ x y, x < N → y < N →
      (runSim N sinf birth survive mutation ds st).history x y ≤ 255 := by
  induction ds generalizing st with
  | nil => exact hb
  | cons d t ih =>
    exact ih (step N sinf birth survive mutation d.1 d.2 st)
      fun x y hx hy => step_history_le N sinf birth survive mutation d.1 d.2 st x y hx hy
        (hb x y hx hy)

/-- A cell alive in the new state of every tick accumulates history
`min(h + ticks, 255)`. -/
theorem aliveRun_history (N : Nat) (sinf : ℚ → ℚ) (birth survive : List Nat)
    (mutation : ℚ) (x y : Nat) (hx : x < N) (hy : y < N)
    (ds : List (RandDraw × RandDraw)) (st : SimState)
    (ha : aliveRun N sinf birth survive mutation x y ds st) :
    ds = [] ∨ (runSim N sinf birth survive mutation ds st).history x y =
      min (st.history x y + ds.length) 255 := by
  induction ds generalizing st with
  | nil => exact Or.inl rfl
  | cons d t ih =>
    right
    obtain ⟨hg, ha2⟩ := ha
    have hh : (step N sinf birth survive mutation d.1 d.2 st).history x y =
        min (st.history x y + 1) 255 := by
      rw [step_history_get N sinf birth survive mutation d.1 d.2 st x y hx hy, if_pos hg]
    have hrun : (runSim N sinf birth survive mutation (d :: t) st).history x y =
        (runSim N sinf birth survive mutation t
          (step N sinf birth survive mutation d.1 d.2 st)).history x y := rfl
    rcases ih (step N sinf birth survive mutation d.1 d.2 st) ha2 with ht | ht
    · subst ht
      rw [hrun]
      calc (runSim N sinf birth survive mutation []
            (step N sinf birth survive mutation d.1 d.2 st)).history x y
          = (step N sinf birth survive mutation d.1 d.2 st).history x y := rfl
        _ = min (st.history x y + [d].length) 255 := by rw [hh]; rfl
    · rw [hrun, ht, hh, List.length_cons]
      omega

/-! ## Fixed inputs used by witnesses -/

/-- The constant-zero stand-in for `math.sin` (bounded by `[-1, 1]`). -/
def sin0 : ℚ → ℚ := fun _ => 0

theorem sin0_bounds : ∀ q, -1 ≤ sin0 q ∧ sin0 q ≤ 1 := by
  intro q
  constructor <;> norm_num [sin0]

/-- Empty simulation state. -/
def st0 : SimState := ⟨fun _ _ => false, fun _ _ => 0, fun _ _ => 0, 0⟩

/-- All-alive simulation state. -/
def stA : SimState := ⟨fun _ _ => true, fun _ _ => 0, fun _ _ => 0, 0⟩

/-- Main-loop state holding the default rule. -/
def mainSt0 : MainState := ⟨"B3/S23|M0.01".toList, [3], [2, 3], 1/100, st0⟩

/-- On a 1×1 torus all eight offsets wrap to the cell itself. -/
theorem count_one_alive (g : Nat → Nat → Bool) (hg : g 0 0 = true) :
    count_neighbors 1 g 0 0 = 8 := by
  simp [count_neighbors, neighborOffsets, Int.emod_one, hg]

/-- With `N = 1`, rule `B8/S8` and rate 0, the single cell stays alive
through any run. -/
theorem aliveRun_allOn (ds : List (RandDraw × RandDraw)) (st : SimState)
    (hg : st.grid 0 0 = true) :
    aliveRun 1 sin0 [8] [8] 0 0 0 ds st ∧
      (runSim 1 sin0 [8] [8] 0 ds st).grid 0 0 = true := by
  induction ds generalizing st with
  | nil => exact ⟨trivial, hg⟩
  | cons d t ih =>
    have hstep : (step 1 sin0 [8] [8] 0 d.1 d.2 st).grid 0 0 = true := by
      rw [step_grid_get 1 sin0 [8] [8] 0 d.1 d.2 st 0 0 (by norm_num) (by norm_num)]
      simp [ugVal, hg, count_one_alive st.grid hg, mem_maybe_flip_zero, mutate_rule]
    exact ⟨⟨hstep, (ih _ hstep).1⟩, (ih _ hstep).2⟩

/-! ## The claim-side Animate ordering (modelled from the claim) -/

/-- Modelled from the claim: Animate computing the wave with the phase
value current at the start of the call, the phase accumulator advancing
only afterwards. -/
def animate_spec (N : Nat) (sinf : ℚ → ℚ) (st : SimState) : SimState :=
  { st with nutrient := (cellList N).foldl (animStep sinf st.wave_phase) st.nutrient,
            wave_phase := st.wave_phase + 1/20 }

theorem animate_spec_get (N : Nat) (sinf : ℚ → ℚ) (st : SimState)
    (x y : Nat) (hx : x < N) (hy : y < N) :
    (animate_spec N sinf st).nutrient x y =
      max 0 (min 1 (7/10 * st.nutrient x y +
        3/10 * (1/2 + 1/2 * sinf (st.wave_phase + (x : ℚ) * (1/10) + (y : ℚ) * (1/10))))) :=
  foldl_writeStep_get _ (cellList N) st.nutrient x y
    (cellList_nodup N) (cellList_mem.mpr ⟨hx, hy⟩)

/-! ## Claim theorems -/

/-- C1: each tick computes the next grid cell-by-cell from the pre-tick
state grid, the tick's already-animated nutrient field, and one mutated
rule pair drawn once for the whole tick: an alive cell survives iff its
neighbor count is in the mutated survival set or its nutrient value
exceeds 0.9; a dead cell is born iff its count is in the mutated birth
set and its nutrient value exceeds 0.1. -/
theorem c1_transition_cellwise (N : Nat) (sinf : ℚ → ℚ) (birth survive : List Nat)
    (mutation : ℚ) (d1 d2 : RandDraw) (st : SimState) (x y : Nat)
    (hx : x < N) (hy : y < N) :
    (step N sinf birth survive mutation d1 d2 st).grid x y =
      (if st.grid x y
       then decide (count_neighbors N st.grid x y ∈
              (mutate_rule birth survive mutation d1 d2).2) ||
            decide ((9 : ℚ)/10 < (animate_nutrients N sinf st).nutrient x y)
       else decide (count_neighbors N st.grid x y ∈
              (mutate_rule birth survive mutation d1 d2).1) &&
            decide ((1 : ℚ)/10 < (animate_nutrients N sinf st).nutrient x y)) :=
  step_grid_get N sinf birth survive mutation d1 d2 st x y hx hy

theorem c1_witness : (0 < 1) ∧
    (step 1 sin0 [3] [2, 3] 0 d0 d0 st0).grid 0 0 =
      (if st0.grid 0 0
       then decide (count_neighbors 1 st0.grid 0 0 ∈ (mutate_rule [3] [2, 3] 0 d0 d0).2) ||
            decide ((9 : ℚ)/10 < (animate_nutrients 1 sin0 st0).nutrient 0 0)
       else decide (count_neighbors 1 st0.grid 0 0 ∈ (mutate_rule [3] [2, 3] 0 d0 d0).1) &&
            decide ((1 : ℚ)/10 < (animate_nutrients 1 sin0 st0).nutrient 0 0)) :=
  ⟨by decide, c1_transition_cellwise 1 sin0 [3] [2, 3] 0 d0 d0 st0 0 0 (by decide) (by decide)⟩

/-- C2: with rate 0, birth `{3}`, survival `{2,3}` and nutrient 0.5
everywhere (inert for both thresholds even after animation), one Step is
exactly the Conway successor for every starting grid; in particular a
2×2 block is a fixed point and a blinker has period 2. -/
theorem c2_standard_life :
    (∀ (N : Nat) (sinf : ℚ → ℚ) (d1 d2 : RandDraw) (st : SimState),
      (∀ q, -1 ≤ sinf q ∧ sinf q ≤ 1) →
      (∀ a b, a < N → b < N → st.nutrient a b = 1/2) →
      ∀ x y, x < N → y < N →
        (step N sinf [3] [2, 3] 0 d1 d2 st).grid x y = conwayStep N st.grid x y) ∧
    (∀ (sinf : ℚ → ℚ) (d1 d2 : RandDraw) (hist : Nat → Nat → Nat) (ph : ℚ),
      (∀ q, -1 ≤ sinf q ∧ sinf q ≤ 1) →
      ∀ x y, x < 4 → y < 4 →
        (step 4 sinf [3] [2, 3] 0 d1 d2 ⟨blockG, halfNu, hist, ph⟩).grid x y = blockG x y) ∧
    (∀ (sinf : ℚ → ℚ) (d1 d2 d3 d4 : RandDraw) (hist : Nat → Nat → Nat) (ph : ℚ),
      (∀ q, -1 ≤ sinf q ∧ sinf q ≤ 1) →
      ∀ x y, x < 5 → y < 5 →
        (step 5 sinf [3] [2, 3] 0 d3 d4
          (step 5 sinf [3] [2, 3] 0 d1 d2 ⟨blinkG, halfNu, hist, ph⟩)).grid x y
          = blinkG x y) := by
  refine ⟨?_, ?_, ?_⟩
  · intro N sinf d1 d2 st hsin hnu x y hx hy
    exact step_conway N sinf d1 d2 st x y (by omega) hx hy hsin (1/2) (1/2)
      (le_of_eq (hnu x y hx hy).symm) (le_of_eq (hnu x y hx hy))
      (by norm_num) (by norm_num) (by norm_num) (by norm_num)
  · intro sinf d1 d2 hist ph hsin x y hx hy
    have h1 : (step 4 sinf [3] [2, 3] 0 d1 d2 ⟨blockG, halfNu, hist, ph⟩).grid x y =
        conwayStep 4 blockG x y :=
      step_conway 4 sinf d1 d2 _ x y (by norm_num) hx hy hsin (1/2) (1/2)
        (le_refl _) (le_refl _) (by norm_num) (by norm_num) (by norm_num) (by norm_num)
    rw [h1]
    exact conway_block_fixed x hx y hy
  · intro sinf d1 d2 d3 d4 hist ph hsin x y hx hy
    have hg2 : ∀ a b, a < 5 → b < 5 →
        (step 5 sinf [3] [2, 3] 0 d1 d2 ⟨blinkG, halfNu, hist, ph⟩).grid a b =
          conwayStep 5 blinkG a b := fun a b ha hb =>
      step_conway 5 sinf d1 d2 _ a b (by norm_num) ha hb hsin (1/2) (1/2)
        (le_refl _) (le_refl _) (by norm_num) (by norm_num) (by norm_num) (by norm_num)
    have hnu2 := animate_nutrient_bounds 5 sinf ⟨blinkG, halfNu, hist, ph⟩ x y hx hy hsin
      (1/2) (1/2) (le_refl _) (le_refl _) (by norm_num) (by norm_num)
    have h3 : (step 5 sinf [3] [2, 3] 0 d3 d4
        (step 5 sinf [3] [2, 3] 0 d1 d2 ⟨blinkG, halfNu, hist, ph⟩)).grid x y =
        conwayStep 5 (step 5 sinf [3] [2, 3] 0 d1 d2 ⟨blinkG, halfNu, hist, ph⟩).grid x y :=
      step_conway 5 sinf d3 d4 _ x y (by norm_num) hx hy hsin
        (7/10 * (1/2)) (7/10 * (1/2) + 3/10) hnu2.1 hnu2.2
        (by norm_num) (by norm_num) (by norm_num) (by norm_num)
    rw [h3,
      conwayStep_congr 5 _ (fun a b => conwayStep 5 blinkG a b) x y (by norm_num) hx hy hg2]
    exact conway_blink_two x hx y hy

theorem c2_witness : (∀ q, -1 ≤ sin0 q ∧ sin0 q ≤ 1) ∧
    (∀ a b, a < 3 → b < 3 → halfNu a b = 1/2) ∧
    (step 3 sin0 [3] [2, 3] 0 d0 d0 ⟨blockG, halfNu, fun _ _ => 0, 0⟩).grid 1 1 =
      conwayStep 3 blockG 1 1 :=
  ⟨sin0_bounds, fun _ _ _ _ => rfl,
    c2_standard_life.1 3 sin0 d0 d0 ⟨blockG, halfNu, fun _ _ => 0, 0⟩ sin0_bounds
      (fun _ _ _ _ => rfl) 1 1 (by decide) (by decide)⟩

/-- C3 counterexample: the claim's Animate (wave from the phase current
at the start of the call) disagrees with the source's `animate_nutrients`
(which increments `wave_phase` before the loop) already on a 1×1 grid
with `sin` modelled as the identity. -/
theorem c3_counterexample :
    (animate_nutrients 1 (fun q => q) st0).nutrient 0 0 ≠
      (animate_spec 1 (fun q => q) st0).nutrient 0 0 := by
  rw [animate_nutrient_get 1 (fun q => q) st0 0 0 (by norm_num) (by norm_num),
    animate_spec_get 1 (fun q => q) st0 0 0 (by norm_num) (by norm_num)]
  norm_num [st0, max_def, min_def]

/-- C3 amended: Animate advances the phase accumulator by 0.05 at the
start of the call and computes every cell's new value
`clamp(0.7·old + 0.3·(0.5 + 0.5·sin(phase' + 0.1x + 0.1y)), 0, 1)` with
the already-incremented phase `phase'` (phase is written before it is
read, not after). -/
theorem c3_phase_incremented_first (N : Nat) (sinf : ℚ → ℚ) (st : SimState)
    (x y : Nat) (hx : x < N) (hy : y < N) :
    (animate_nutrients N sinf st).nutrient x y =
      max 0 (min 1 (7/10 * st.nutrient x y +
        3/10 * (1/2 + 1/2 * sinf ((st.wave_phase + 1/20) + (x : ℚ) * (1/10) + (y : ℚ) * (1/10))))) ∧
    (animate_nutrients N sinf st).wave_phase = st.wave_phase + 1/20 :=
  ⟨animate_nutrient_get N sinf st x y hx hy, rfl⟩

theorem c3_witness : (0 < 1) ∧
    ((animate_nutrients 1 sin0 st0).nutrient 0 0 =
      max 0 (min 1 (7/10 * st0.nutrient 0 0 +
        3/10 * (1/2 + 1/2 * sin0 ((st0.wave_phase + 1/20) + (0 : ℚ) * (1/10) + (0 : ℚ) * (1/10))))) ∧
    (animate_nutrients 1 sin0 st0).wave_phase = st0.wave_phase + 1/20) :=
  ⟨by decide, c3_phase_incremented_first 1 sin0 st0 0 0 (by decide) (by decide)⟩

/-- C4 counterexample: `parse_dna` accepts the digit 9, so a parsed rule
can hold a value outside `[0, 8]`. -/
theorem c4_counterexample :
    parse_dna "B9/S23|M0.01".toList = some ([9], [2, 3], 1/100) ∧
      ¬(∀ v ∈ [(9 : Nat)], v ≤ 8) := by
  constructor
  · simp +decide [parse_dna, pySplit, parseDigits, digit?, isDig, pyFloat?, pyFloatCore, natVal]
  · decide

/-- C4 amended: every accepted parse yields birth and survival sets whose
values lie in `[0, 9]` (single decimal digits; the digit 9 is accepted
even though a Moore neighborhood never counts past 8). -/
theorem c4_digits_in_range (l : List Char) (b s : List Nat) (m : ℚ)
    (h : parse_dna l = some (b, s, m)) :
    (∀ v ∈ b, v ≤ 9) ∧ ∀ v ∈ s, v ≤ 9 := by
  rw [parse_dna] at h
  split at h
  · split at h
    · rename_i b_part rest heq1 x2 s_part m_part heq2
      cases hb : parseDigits (List.drop 1 b_part) with
      | none => rw [hb] at h; simp at h
      | some birth =>
        rw [hb] at h
        cases hs : parseDigits (List.drop 1 s_part) with
        | none => rw [hs] at h; simp at h
        | some survive =>
          rw [hs] at h
          cases hm : pyFloat? (List.drop 1 m_part) with
          | none => rw [hm] at h; simp at h
          | some mutation =>
            rw [hm] at h
            simp only [Option.some.injEq, Prod.mk.injEq] at h
            obtain ⟨rfl, rfl, rfl⟩ := h
            exact ⟨parseDigits_le_nine _ _ hb, parseDigits_le_nine _ _ hs⟩
    · cases h
  · cases h

theorem c4_witness :
    parse_dna "B9/S23|M0.01".toList = some ([9], [2, 3], 1/100) ∧
      ((∀ v ∈ [(9 : Nat)], v ≤ 9) ∧ ∀ v ∈ [(2 : Nat), 3], v ≤ 9) := by
  have hp : parse_dna "B9/S23|M0.01".toList = some ([9], [2, 3], 1/100) := by
    simp +decide [parse_dna, pySplit, parseDigits, digit?, isDig, pyFloat?, pyFloatCore, natVal]
  exact ⟨hp, c4_digits_in_range "B9/S23|M0.01".toList [9] [2, 3] (1/100) hp⟩

/-- C5: the `KEY_D` handler (src/1.py lines 142-144) reassigns `DNA`
before parsing.  On unparseable input the `ValueError` escapes `main`
uncaught: at that moment the stored rule text has already been replaced
by the bad input (the parsed rule variables still hold their old values),
so a parse failure corrupts the displayed rule text and terminates the
program instead of leaving the state untouched and re-prompting. -/
theorem c5_parse_failure_overwrites_dna :
    load_rule mainSt0 "garbage".toList =
      Except.error ⟨"garbage".toList, [3], [2, 3], 1/100, st0⟩ ∧
    "garbage".toList ≠ mainSt0.dna :=
  ⟨rfl, by decide⟩

/-- C6: history values never leave `[0, 255]` over any run (the lower
bound is by construction, the type being `Nat`), and a cell alive in the
new state of each of 300 consecutive ticks ends with history exactly
255. -/
theorem c6_history_bounds :
    (∀ (N : Nat) (sinf : ℚ → ℚ) (birth survive : List Nat) (mutation : ℚ)
       (ds : List (RandDraw × RandDraw)) (st : SimState),
      (∀ x y, x < N → y < N → st.history x y ≤ 255) →
      ∀ x y, x < N → y < N →
        (runSim N sinf birth survive mutation ds st).history x y ≤ 255) ∧
    (∀ (N : Nat) (sinf : ℚ → ℚ) (birth survive : List Nat) (mutation : ℚ)
       (ds : List (RandDraw × RandDraw)) (st : SimState) (x y : Nat),
      x < N → y < N → ds.length = 300 →
      aliveRun N sinf birth survive mutation x y ds st →
      (runSim N sinf birth survive mutation ds st).history x y = 255) := by
  constructor
  · intro N sinf birth survive mutation ds st hb x y hx hy
    exact runSim_history_le N sinf birth survive mutation ds st hb x y hx hy
  · intro N sinf birth survive mutation ds st x y hx hy hlen ha
    rcases aliveRun_history N sinf birth survive mutation x y hx hy ds st ha with h | h
    · rw [h] at hlen
      simp at hlen
    · rw [h, hlen]
      omega

theorem c6_witness :
    (∀ x y, x < 1 → y < 1 → stA.history x y ≤ 255) ∧
    (runSim 1 sin0 [8] [8] 0 (List.replicate 300 (d0, d0)) stA).history 0 0 ≤ 255 ∧
    (List.replicate 300 (d0, d0)).length = 300 ∧
    aliveRun 1 sin0 [8] [8] 0 0 0 (List.replicate 300 (d0, d0)) stA ∧
    (runSim 1 sin0 [8] [8] 0 (List.replicate 300 (d0, d0)) stA).history 0 0 = 255 := by
  have hb : ∀ x y, x < 1 → y < 1 → stA.history x y ≤ 255 := by
    intro x y _ _
    norm_num [stA]
  have hlen : (List.replicate 300 (d0, d0)).length = 300 := by
    rw [List.length_replicate]
  have ha := (aliveRun_allOn (List.replicate 300 (d0, d0)) stA rfl).1
  exact ⟨hb,
    c6_history_bounds.1 1 sin0 [8] [8] 0 (List.replicate 300 (d0, d0)) stA hb 0 0
      (by norm_num) (by norm_num),
    hlen, ha,
    c6_history_bounds.2 1 sin0 [8] [8] 0 (List.replicate 300 (d0, d0)) stA 0 0
      (by norm_num) (by norm_num) hlen ha⟩

theorem c7_witness : (3 ≤ 4) ∧ (1 < 4) ∧
    count_neighbors 4 singleG 1 1 =
      (if ((1 : Nat), (1 : Nat)) ∈ [(4-1, 4-1), (4-1, 0), (0, 4-1), (1, 1), (1, 0), (0, 1),
        (4-1, 1), (1, 4-1)] then 1 else 0) :=
  ⟨by decide, by decide, c7_toroidal_single_cell 4 1 1 (by decide) (by decide) (by decide)⟩

/-- C8: mutation never writes back into the stored rule: over any number
of ticks with mutation rate 1, the rule text and the stored birth and
survival lists of the main-loop state are unchanged (each tick's mutated
pair is a fresh transient copy). -/
theorem c8_stored_rule_immutable (N : Nat) (sinf : ℚ → ℚ)
    (ds : List (RandDraw × RandDraw)) (st : MainState) (_hrate : st.mutation = 1) :
    (runMain N sinf ds st).dna = st.dna ∧
    (runMain N sinf ds st).birth = st.birth ∧
    (runMain N sinf ds st).survive = st.survive ∧
    (runMain N sinf ds st).mutation = st.mutation :=
  runMain_rule_fixed N sinf ds st

/-- Main-loop state with mutation rate 1. -/
def mainSt1 : MainState := ⟨"B3/S23|M1.0".toList, [3], [2, 3], 1, st0⟩

theorem c8_witness : mainSt1.mutation = 1 ∧
    ((runMain 1 sin0 [(d0, d0)] mainSt1).dna = mainSt1.dna ∧
     (runMain 1 sin0 [(d0, d0)] mainSt1).birth = mainSt1.birth ∧
     (runMain 1 sin0 [(d0, d0)] mainSt1).survive = mainSt1.survive ∧
     (runMain 1 sin0 [(d0, d0)] mainSt1).mutation = mainSt1.mutation) :=
  ⟨rfl, c8_stored_rule_immutable 1 sin0 [(d0, d0)] mainSt1 rfl⟩

/-- C9 counterexample: acceptance is not exactly the grammar — the
leading `B`/`S`/`M` markers are never checked, so `"A3/S23|M0.01"` is
outside the grammar yet parses. -/
theorem c9_counterexample :
    matchesGrammar "A3/S23|M0.01".toList = false ∧
    parse_dna "A3/S23|M0.01".toList = some ([3], [2, 3], 1/100) := by
  constructor
  · decide
  · simp +decide [parse_dna, pySplit, parseDigits, digit?, isDig, pyFloat?, pyFloatCore, natVal]

/-- C9 amended: every string matching the grammar
`B<digits>/S<digits>|M<float>` parses successfully; Parse fails whenever
the `/` separator is missing (in particular on `"B3S23M0.01"`), whenever
the two splits succeed but the mutation term is not parseable as a
float, and on a non-digit token (in particular `"Bx/S23|M0.01"`); but
parse failure is not *exactly* grammar mismatch, because the marker
letters `B`/`S`/`M` are ignored. -/
theorem c9_grammar_and_failures :
    (∀ l : List Char, matchesGrammar l = true → (parse_dna l).isSome = true) ∧
    (∀ l : List Char, '/' ∉ l → parse_dna l = none) ∧
    (∀ l b_part rest s_part m_part : List Char,
      pySplit '/' l = [b_part, rest] → pySplit '|' rest = [s_part, m_part] →
      pyFloat? (m_part.drop 1) = none → parse_dna l = none) ∧
    parse_dna "B3S23M0.01".toList = none ∧
    parse_dna "Bx/S23|M0.01".toList = none := by
  refine ⟨matchesGrammar_parse, ?_, ?_, by decide, by decide⟩
  · intro l hnm
    rw [parse_dna, pySplit_not_mem '/' l hnm]
  · intro l b_part rest s_part m_part h1 h2 hfl
    rw [parse_dna, h1]
    simp only [h2, hfl]
    cases parseDigits (List.drop 1 b_part) <;>
      cases parseDigits (List.drop 1 s_part) <;> rfl

theorem c9_witness : matchesGrammar "B3/S23|M0.01".toList = true ∧
    (parse_dna "B3/S23|M0.01".toList).isSome = true ∧
    pySplit '/' "B3/S23|Mxx".toList = ["B3".toList, "S23|Mxx".toList] ∧
    pySplit '|' "S23|Mxx".toList = ["S23".toList, "Mxx".toList] ∧
    pyFloat? ("Mxx".toList.drop 1) = none ∧
    parse_dna "B3/S23|Mxx".toList = none :=
  ⟨by decide, c9_grammar_and_failures.1 "B3/S23|M0.01".toList (by decide),
    by decide, by decide, by decide,
    c9_grammar_and_failures.2.2.1 "B3/S23|Mxx".toList "B3".toList "S23|Mxx".toList
      "S23".toList "Mxx".toList (by decide) (by decide) (by decide)⟩

/-- C10: digit runs may be empty: for every float text `f`,
`"B/S|M" ++ f` parses to the empty birth set, the empty survival set and
`f`'s value, so the never-born/never-survive rule is expressible. -/
theorem c10_empty_digit_runs (f : List Char) (q : ℚ) (h : pyFloat? f = some q) :
    parse_dna ('B' :: '/' :: 'S' :: '|' :: 'M' :: f) = some ([], [], q) := by
  have hsome : (pyFloat? f).isSome = true := by rw [h]; rfl
  have hchars := pyFloat?_chars f hsome
  have hsl : '/' ∉ f := by
    intro hm
    rcases hchars '/' hm with hd | hd | hd | hd <;> exact absurd hd (by decide)
  have hbar : '|' ∉ f := by
    intro hm
    rcases hchars '|' hm with hd | hd | hd | hd <;> exact absurd hd (by decide)
  have hsp1 : pySplit '/' ('B' :: '/' :: 'S' :: '|' :: 'M' :: f) =
      [['B'], 'S' :: '|' :: 'M' :: f] := by
    rw [show ('B' :: '/' :: 'S' :: '|' :: 'M' :: f) =
        (['B'] ++ '/' :: ('S' :: '|' :: 'M' :: f)) from rfl]
    refine pySplit_two '/' _ _ ?_ ?_
    · intro hm
      exact absurd (List.mem_singleton.mp hm) (by decide)
    · intro hm
      rcases List.mem_cons.mp hm with hd | hm2
      · exact absurd hd (by decide)
      · rcases List.mem_cons.mp hm2 with hd | hm3
        · exact absurd hd (by decide)
        · rcases List.mem_cons.mp hm3 with hd | hm4
          · exact absurd hd (by decide)
          · exact hsl hm4
  have hsp2 : pySplit '|' ('S' :: '|' :: 'M' :: f) = [['S'], 'M' :: f] := by
    rw [show ('S' :: '|' :: 'M' :: f) = (['S'] ++ '|' :: ('M' :: f)) from rfl]
    refine pySplit_two '|' _ _ ?_ ?_
    · intro hm
      exact absurd (List.mem_singleton.mp hm) (by decide)
    · intro hm
      rcases List.mem_cons.mp hm with hd | hm2
      · exact absurd hd (by decide)
      · exact hbar hm2
  rw [parse_dna, hsp1]
  simp only [hsp2, List.drop_succ_cons, List.drop_zero, parseDigits, h]

theorem c10_witness : pyFloat? "0.1".toList = some (1/10) ∧
    parse_dna ('B' :: '/' :: 'S' :: '|' :: 'M' :: "0.1".toList) = some ([], [], 1/10) := by
  have hf : pyFloat? "0.1".toList = some (1/10) := by
    simp +decide [pyFloat?, pyFloatCore, natVal, isDig]
  exact ⟨hf, c10_empty_digit_runs "0.1".toList (1/10) hf⟩
